import Mathlib

/-!
Verification of the siacoin-promoter coordination core against its
natural-language specification.  The definitions below are a shallow
embedding of the Go source (promoter/database.go, promoter/skyd.go and the
related promoter files): pure functions become Lean functions, the mongo
collection of watched addresses becomes an explicit list-of-rows state, and
the wallet-daemon ("skyd") side effects become explicit lists of emitted
calls.  Machine integers in the source are small counters (int64), modelled
as Nat/Int; arbitrary-precision currency (types.Currency, big.Rat) is
modelled as Nat and Rat.
-/

/-- A blockchain unlock hash (types.UnlockHash, 32 bytes).  Only equality on
addresses matters to the promoter, so we model it as Nat. -/
abbrev Addr := Nat

/-- WatchedAddress from promoter/database.go: one entry of the
watched_addresses collection.  The field absent/"" distinction of the mongo
documents collapses to "" exactly as it does when decoding into the Go
struct (UserSub is a plain string, absent decodes to ""). -/
structure WatchedAddress where
  primary : Bool
  address : Addr
  server : String
  userSub : String
deriving Repr, DecidableEq

/-- operationType from promoter/database.go is a string type. -/
abbrev OperationType := String

/-- operationTypeInsert constant. -/
def operationTypeInsert : OperationType := "insert"

/-- operationTypeDelete constant. -/
def operationTypeDelete : OperationType := "delete"

/-- WatchedAddress.Unused from promoter/database.go: whether the address is
not assigned to a user. -/
def WatchedAddress.Unused (w : WatchedAddress) : Bool :=
  w.userSub == ""

/-- WatchedAddressUpdate from promoter/database.go: an in-memory update to
the watched address collection. -/
structure WatchedAddressUpdate where
  address : Addr
  operationType : OperationType
deriving Repr, DecidableEq

/-- WatchedAddressDBUpdate from promoter/database.go: a change-stream event
carrying the document key, the full document (post-image; for delete and
update events mongo delivers no post-image, which decodes to the zero-valued
WatchedAddress) and the operation type. -/
structure WatchedAddressDBUpdate where
  documentKeyAddress : Addr
  fullDocument : WatchedAddress
  operationType : OperationType
deriving Repr, DecidableEq

/-- WatchedAddressDBUpdate.ToUpdate from promoter/database.go. -/
def WatchedAddressDBUpdate.ToUpdate (u : WatchedAddressDBUpdate) : WatchedAddressUpdate :=
  { address := u.documentKeyAddress, operationType := u.operationType }

/-- One call issued to the wallet daemon by managedProcessAddressUpdate:
WalletWatchRemovePost resp. WalletWatchAddPost, each carrying the address
set and the unused flag. -/
inductive SkydCall where
  | removeWatch (addrs : List Addr) (unused : Bool)
  | addWatch (addrs : List Addr) (unused : Bool)
deriving Repr, DecidableEq

/-- The Go map uniqueUpdates[update.Address] = update, modelled as an
association list with replace-or-append insertion (map assignment
semantics). -/
def mapInsert : List (Addr × WatchedAddressUpdate) → WatchedAddressUpdate →
    List (Addr × WatchedAddressUpdate)
  | [], u => [(u.address, u)]
  | p :: m, u => if p.1 == u.address then (p.1, u) :: m else p :: mapInsert m u

/-- The deduplication loop of managedProcessAddressUpdate (skyd.go): build
the map of latest updates per address by iterating over the batch. -/
def uniqueUpdates (updates : List WatchedAddressUpdate) :
    List (Addr × WatchedAddressUpdate) :=
  updates.foldl mapInsert []

/-- managedProcessAddressUpdate from promoter/skyd.go, as the list of calls
it issues to skyd.  With no updates it returns immediately; otherwise it
deduplicates (latest update per address wins), sorts updates into additions
(operation "insert") and removals (operation "delete"), ignores the rest,
and issues a remove call with unused hard-coded to true followed by an add
call with the unused flag it was given. -/
def managedProcessAddressUpdate (unused : Bool) (updates : List WatchedAddressUpdate) :
    List SkydCall :=
  if updates = [] then []
  else
    let uniq := uniqueUpdates updates
    let additions := (uniq.filter fun p => p.2.operationType == operationTypeInsert).map Prod.fst
    let removals := (uniq.filter fun p => p.2.operationType == operationTypeDelete).map Prod.fst
    [SkydCall.removeWatch removals true, SkydCall.addWatch additions unused]

/-- The initial-diff branch of threadedAddressWatcher (promoter/database.go):
given the diff (toAdd, toRemove) produced by staticAddrDiff, compute the
unused flag as the AND over the rows to add, and invoke the update callback
(managedProcessAddressUpdate) once or twice depending on which sides of the
diff are non-empty.  The result is the concatenated list of skyd calls. -/
def initialDiffCalls (toAdd : List WatchedAddress) (toRemove : List Addr) :
    List SkydCall :=
  let unused := toAdd.all WatchedAddress.Unused
  let toAddUpdates := toAdd.map fun a =>
    { address := a.address, operationType := operationTypeInsert : WatchedAddressUpdate }
  let toRemoveUpdates := toRemove.map fun a =>
    { address := a, operationType := operationTypeDelete : WatchedAddressUpdate }
  if 0 < toAddUpdates.length ∧ toRemoveUpdates.length = 0 then
    managedProcessAddressUpdate unused toAddUpdates
  else if toAddUpdates.length = 0 ∧ 0 < toRemoveUpdates.length then
    managedProcessAddressUpdate false toRemoveUpdates
  else if 0 < toAddUpdates.length ∧ 0 < toRemoveUpdates.length then
    managedProcessAddressUpdate true toRemoveUpdates ++
      managedProcessAddressUpdate false toAddUpdates
  else []

/-- The change-stream tail loop body of threadedAddressWatcher
(promoter/database.go): for one batch of change-stream events (one blocking
Next plus non-blocking TryNext draining, at most updateMaxBatchSize events)
the unused flag is folded as the AND of fullDocument.Unused() over ALL
events of the batch, and the whole batch is passed to the update callback. -/
def changeStreamBatchCalls (batch : List WatchedAddressDBUpdate) : List SkydCall :=
  let unused := batch.all fun e => e.fullDocument.Unused
  managedProcessAddressUpdate unused (batch.map WatchedAddressDBUpdate.ToUpdate)

/-- Concatenated skyd calls over a sequence of consecutive tail batches. -/
def callsOfBatches (batches : List (List WatchedAddressDBUpdate)) : List SkydCall :=
  (batches.map changeStreamBatchCalls).flatten

/-- The watch-set change a single skyd call applies to one address:
"insert" when the address is in an add call, "delete" when it is in a
remove call, nothing otherwise. -/
def SkydCall.changeFor (c : SkydCall) (a : Addr) : Option OperationType :=
  match c with
  | .removeWatch addrs _ => if addrs.contains a then some operationTypeDelete else none
  | .addWatch addrs _ => if addrs.contains a then some operationTypeInsert else none

/-- The sequence of watch-set changes a list of skyd calls applies to one
address. -/
def emittedOps (a : Addr) (calls : List SkydCall) : List OperationType :=
  calls.filterMap fun c => c.changeFor a

/-- Association-list lookup on the deduplication map (the value the Go map
holds for a key). -/
def lookupA (m : List (Addr × WatchedAddressUpdate)) (a : Addr) :
    Option WatchedAddressUpdate :=
  (m.find? fun p => p.1 == a).map Prod.snd

/-- The last update for a given address within a batch (the event that
survives deduplication). -/
def lastUpdateOf (a : Addr) (updates : List WatchedAddressUpdate) :
    Option WatchedAddressUpdate :=
  (updates.filter fun u => u.address == a).getLast?

/-- The watched_addresses collection state: the list of its documents.
Addresses are the mongo _id, so well-formed states have pairwise distinct
addresses; none of the theorems below needs that assumption. -/
abbrev DBState := List WatchedAddress

/-- filterUnusedAddresses from promoter/database.go: the filter matching
documents whose user_id field is absent or "".  Decoded into the Go struct
both cases read as UserSub == "". -/
def filterUnusedAddresses (w : WatchedAddress) : Bool :=
  w.userSub == ""

/-- The $set document of AddressForUser's FindOneAndUpdate: assign the user
and make the address primary. -/
def setUserPrimary (sub : String) (w : WatchedAddress) : WatchedAddress :=
  { w with userSub := sub, primary := true }

/-- mongo FindOneAndUpdate against a filter: exactly one matching document
is updated.  Which one is unspecified, so the model takes a choice index k
and updates the k-th matching document; k at least the number of matches
models the no-document case (mongo then returns ErrNoDocuments and updates
nothing). -/
def updateKthMatching (p : WatchedAddress → Bool) (f : WatchedAddress → WatchedAddress) :
    Nat → DBState → DBState
  | _, [] => []
  | k, w :: ws =>
    if p w then
      match k with
      | 0 => f w :: ws
      | k + 1 => w :: updateKthMatching p f k ws
    else w :: updateKthMatching p f k ws

/-- AddressForUser from promoter/database.go, as its effect on the
watched_addresses collection: if the user already has a primary address the
state is untouched, otherwise one document matching filterUnusedAddresses
(choice k) is atomically updated to the user's primary address. -/
def AddressForUser (k : Nat) (sub : String) (s : DBState) : DBState :=
  if s.any fun w => w.userSub == sub && w.primary then s
  else updateKthMatching filterUnusedAddresses (setUserPrimary sub) k s

/-- SetPrimaryAddressInvalid from promoter/database.go: UpdateMany over all
documents with this user and primary=true, clearing the primary flag. -/
def SetPrimaryAddressInvalid (sub : String) (s : DBState) : DBState :=
  s.map fun w => if w.userSub == sub && w.primary then { w with primary := false } else w

/-- MarkServerDead from promoter/database.go, as its effect on the
collection: DeleteMany of the server's documents matching
filterUnusedAddresses, then UpdateMany clearing primary on the server's
primary documents (both inside one session). -/
def MarkServerDead (server : String) (s : DBState) : DBState :=
  let afterDelete := s.filter fun w => !(filterUnusedAddresses w && w.server == server)
  afterDelete.map fun w =>
    if w.server == server && w.primary then { w with primary := false } else w

/-- Errors a mongo call can hand back to the promoter. -/
inductive MongoErr where
  | errNoDocuments
  | otherFailure (msg : String)
deriving Repr, DecidableEq

/-- MarkServerDead from promoter/database.go as a fallible call: DeleteMany
and UpdateMany never produce mongo.ErrNoDocuments (they report counts in
their results, which MarkServerDead discards), so absent a database failure
the function returns no error whether or not any document matched either
clause. -/
def MarkServerDeadResult (server : String) (s : DBState) : Option MongoErr × DBState :=
  (none, MarkServerDead server s)

/-- Whether any document matches either of MarkServerDead's two clauses:
the delete clause (unused documents of the server) or the update clause
(primary documents of the server). -/
def markServerDeadMatches (server : String) (s : DBState) : Bool :=
  (s.any fun w => filterUnusedAddresses w && w.server == server) ||
  (s.any fun w => w.server == server && w.primary)

/-- deadServerPOST from api/routes.go as the HTTP status it answers: 400
for an empty server name, 404 when MarkServerDead's error contains
mongo.ErrNoDocuments, 500 on any other error, 200 on success. -/
def deadServerStatus (servername : String) (err : Option MongoErr) : Nat :=
  if servername == "" then 400
  else
    match err with
    | some MongoErr.errNoDocuments => 404
    | some (MongoErr.otherFailure _) => 500
    | none => 200

/-- One database operation of the claims C3/C9 alphabet. -/
inductive DBOp where
  | addressForUser (k : Nat) (sub : String)
  | setPrimaryAddressInvalid (sub : String)
  | markServerDead (server : String)
deriving Repr, DecidableEq

/-- Apply one operation to the collection state. -/
def applyOp (s : DBState) : DBOp → DBState
  | DBOp.addressForUser k sub => AddressForUser k sub s
  | DBOp.setPrimaryAddressInvalid sub => SetPrimaryAddressInvalid sub s
  | DBOp.markServerDead server => MarkServerDead server s

/-- Run a finite sequence of operations left to right. -/
def runOps (s : DBState) (ops : List DBOp) : DBState :=
  ops.foldl applyOp s

/-- Number of primary=true documents of one user. -/
def primaryCount (s : DBState) (sub : String) : Nat :=
  s.countP fun w => w.userSub == sub && w.primary

/-- Invariant I1: every non-empty userSub has at most one primary=true
document. -/
def InvI1 (s : DBState) : Prop :=
  ∀ sub, sub ≠ "" → primaryCount s sub ≤ 1

/-- Number of documents matching filterUnusedAddresses (the unused pool). -/
def unusedCount (s : DBState) : Nat :=
  s.countP filterUnusedAddresses

/-- newUnusedWatchedAddress from promoter/database.go: a fresh pool entry
for this promoter; Primary and UserSub keep the Go zero values. -/
def newUnusedWatchedAddress (serverDomain : String) (addr : Addr) : WatchedAddress :=
  { primary := false, address := addr, server := serverDomain, userSub := "" }

/-- staticShouldGenerateAddresses from promoter/database.go: the fast
pre-check, a CountDocuments over filterUnusedAddresses limited to
minUnusedAddresses, compared against minUnusedAddresses. -/
def staticShouldGenerateAddresses (minUnusedAddresses : Nat) (s : DBState) : Bool :=
  decide (min (unusedCount s) minUnusedAddresses < minUnusedAddresses)

/-- threadedRegenerateAddresses from promoter/database.go, the error-free
run: fast pre-check, then (under the collection lock) the exact unused
count n, toGenerate = maxUnusedAddresses - n as an int64, and if positive
that many WalletAddressGet calls (modelled by the address source
walletAddressGet) whose results are bulk-inserted as unused documents of
this server. -/
def threadedRegenerateAddresses (minUnusedAddresses maxUnusedAddresses : Nat)
    (serverDomain : String) (walletAddressGet : Nat → Addr) (s : DBState) : DBState :=
  if !staticShouldGenerateAddresses minUnusedAddresses s then s
  else
    let n : Nat := unusedCount s
    let toGenerate : Int := (maxUnusedAddresses : Int) - (n : Int)
    if toGenerate ≤ 0 then s
    else
      let newAddresses := (List.range toGenerate.toNat).map fun i =>
        newUnusedWatchedAddress serverDomain (walletAddressGet i)
      s ++ newAddresses

/-- Transaction from promoter/database.go: one document of the transactions
(deposits) collection.  CreditedAt is a unix timestamp, 0 being Go's zero
time; Value is the stringified types.Currency. -/
structure Transaction where
  address : Addr
  credited : Bool
  creditedAt : Int
  txnID : Nat
  value : String
deriving Repr, DecidableEq

/-- One entry of a mongo BulkWriteException.WriteErrors; the only datum the
promoter inspects is whether mongo.IsDuplicateKeyError holds for it. -/
structure WriteError where
  isDupKey : Bool
deriving Repr, DecidableEq

/-- One document of an unordered InsertMany: a document whose _id (txnID)
already exists is skipped and contributes a duplicate-key write error, any
other document is inserted; later documents are still attempted
(ordered=false). -/
def bulkInsertStep (acc : List Transaction × List WriteError) (t : Transaction) :
    List Transaction × List WriteError :=
  if acc.1.any fun u => u.txnID == t.txnID then
    (acc.1, acc.2 ++ [{ isDupKey := true }])
  else (acc.1 ++ [t], acc.2)

/-- mongo InsertMany with ordered=false over the transactions collection:
returns the new collection contents and the list of write errors. -/
def insertManyUnordered (col : List Transaction) (batch : List Transaction) :
    List Transaction × List WriteError :=
  batch.foldl bulkInsertStep (col, [])

/-- The error filtering of staticInsertTransactions
(promoter/database.go): compose every write error that is not a
duplicate-key error; the composed error is nil exactly when this list is
empty. -/
def composeNonDupKeyErrors (errs : List WriteError) : List WriteError :=
  errs.filter fun e => !e.isDupKey

/-- staticInsertTransactions from promoter/database.go: unordered bulk
insert, then duplicate-key write errors are dropped and only the remaining
write errors are returned to the caller. -/
def staticInsertTransactions (col : List Transaction) (batch : List Transaction) :
    List Transaction × List WriteError :=
  let r := insertManyUnordered col batch
  (r.1, composeNonDupKeyErrors r.2)

/-- One output of a confirmed wallet transaction as reported by skyd's
/wallet/transactions endpoint: the receiving address and the siacoin value
(types.Currency, an unbounded non-negative integer). -/
structure SiacoinOutput where
  relatedAddress : Addr
  value : Nat
deriving Repr, DecidableEq

/-- One confirmed transaction reported by skyd for a watched address. -/
structure ConfirmedTransaction where
  transactionID : Nat
  outputs : List SiacoinOutput
deriving Repr, DecidableEq

/-- The inner loop of staticTxnsByAddress over a transaction's outputs:
fold (save, value), setting save and accumulating value on every output
whose relatedAddress equals the watched address. -/
def outputSumStep (addr : Addr) (sv : Bool × Nat) (out : SiacoinOutput) : Bool × Nat :=
  if out.relatedAddress == addr then (true, sv.2 + out.value) else sv

/-- staticTxnsByAddress from the promoter skyd code: for every confirmed
transaction, sum the outputs paying the address; when the save flag was set
(at least one output pays the address) append a Transaction document with
the stringified sum, Credited and CreditedAt keeping their zero values. -/
def staticTxnsByAddress (addr : Addr) (confirmed : List ConfirmedTransaction) :
    List Transaction :=
  confirmed.foldl
    (fun txns txn =>
      let sv := txn.outputs.foldl (outputSumStep addr) (false, 0)
      if sv.1 then
        txns ++ [{ address := addr, credited := false, creditedAt := 0,
                   txnID := txn.transactionID, value := toString sv.2 }]
      else txns)
    []

/-- Whether a confirmed transaction has at least one output paying the
address. -/
def hasOutputTo (addr : Addr) (txn : ConfirmedTransaction) : Bool :=
  txn.outputs.any fun o => o.relatedAddress == addr

/-- The summed value of a confirmed transaction's outputs paying the
address. -/
def outputSumTo (addr : Addr) (txn : ConfirmedTransaction) : Nat :=
  ((txn.outputs.filter fun o => o.relatedAddress == addr).map SiacoinOutput.value).sum

/-- creditPrecision from the promoter credit code. -/
def creditPrecision : Nat := 20

/-- types.SiacoinPrecision: 10^24 base units per siacoin. -/
def siacoinPrecision : Nat := 10 ^ 24

/-- defaultConversionRate from promoter/database.go:
1 / types.SiacoinPrecision, so that 1 SC converts to 1 credit. -/
def defaultConversionRate : ℚ := 1 / (siacoinPrecision : ℚ)

/-- convertSCToCredits from the promoter credit code: the exact rational
product of the siacoin base-unit amount (types.Currency) and the conversion
rate (big.Rat). -/
def convertSCToCredits (sc : Nat) (conversionRate : ℚ) : ℚ :=
  (sc : ℚ) * conversionRate

/-- The k decimal digits (most significant first, zero padded) of n mod
10^k. -/
def decDigits (n : Nat) (k : Nat) : List Char :=
  (List.range k).map fun i => Char.ofNat (48 + n / 10 ^ (k - 1 - i) % 10)

/-- big.Rat.FloatString(prec) for a non-negative rational and positive
precision: the numerator scaled by 10^prec is divided by the denominator
rounding to nearest (halves away from zero), and the result is printed as
integer part, a dot, and exactly prec zero-padded fractional digits.
Credits are non-negative (types.Currency and the configured rate are), so
the non-negative case is the one the promoter exercises. -/
def ratFloatString (x : ℚ) (prec : Nat) : String :=
  let scaled : Nat := x.num.toNat * 10 ^ prec
  let den : Nat := x.den
  let rounded : Nat := (2 * scaled + den) / (2 * den)
  toString (rounded / 10 ^ prec) ++ "." ++ String.mk (decDigits (rounded % 10 ^ prec) prec)

/-- The credits string staticCreditTxn (promoter credit code) sends to the
creditor: the converted amount formatted with creditPrecision fractional
digits. -/
def staticCreditTxnCreditsStr (amt : Nat) (cr : ℚ) : String :=
  ratFloatString (convertSCToCredits amt cr) creditPrecision

/-- The keys of the deduplication map. -/
def mapKeys (m : List (Addr × WatchedAddressUpdate)) : List Addr :=
  m.map Prod.fst

/-- The _id column of the transactions collection. -/
def txnIDs (col : List Transaction) : List Nat :=
  col.map Transaction.txnID

/-! Helper lemmas about the deduplication map of
managedProcessAddressUpdate. -/

theorem lookupA_mapInsert (m : List (Addr × WatchedAddressUpdate))
    (u : WatchedAddressUpdate) (a : Addr) :
    lookupA (mapInsert m u) a = if a = u.address then some u else lookupA m a := by
  induction m with
  | nil =>
    by_cases h : a = u.address
    · subst h
      simp [mapInsert, lookupA]
    · have hua : (u.address == a) = false :=
        beq_eq_false_iff_ne.mpr fun hc => h hc.symm
      simp [mapInsert, lookupA, List.find?, hua, h]
  | cons p m ih =>
    by_cases hpu : p.1 = u.address
    · simp only [mapInsert, hpu, beq_self_eq_true, if_true]
      by_cases ha : a = u.address
      · subst ha
        simp [lookupA, List.find?, hpu, beq_self_eq_true]
      · have hua : (u.address == a) = false :=
          beq_eq_false_iff_ne.mpr fun hc => ha hc.symm
        have hpa : (p.1 == a) = false := by rw [hpu]; exact hua
        simp [lookupA, List.find?, hpa, hua, ha]
    · have hne : (p.1 == u.address) = false := beq_eq_false_iff_ne.mpr hpu
      simp only [mapInsert, hne, Bool.false_eq_true, if_false]
      by_cases hpa : p.1 = a
      · have hT : (p.1 == a) = true := beq_iff_eq.mpr hpa
        have haU : a ≠ u.address := fun hc => hpu (hpa.trans hc)
        simp [lookupA, List.find?, hT, haU]
      · have hF : (p.1 == a) = false := beq_eq_false_iff_ne.mpr hpa
        simp only [lookupA, List.find?, hF] at ih ⊢
        exact ih

theorem getLast?_cons_or {α : Type} (a : α) (l : List α) :
    (a :: l).getLast? = l.getLast?.or (some a) := by
  cases l with
  | nil => rfl
  | cons b t =>
    rw [List.getLast?_cons_cons]
    cases h : (b :: t).getLast? with
    | none =>
      have : (b :: t) ≠ [] := by simp
      rw [List.getLast?_eq_none_iff] at h
      exact absurd h this
    | some x => rfl

theorem lookupA_foldl_mapInsert (l : List WatchedAddressUpdate)
    (acc : List (Addr × WatchedAddressUpdate)) (a : Addr) :
    lookupA (l.foldl mapInsert acc) a =
      ((l.filter fun u => u.address == a).getLast?).or (lookupA acc a) := by
  induction l generalizing acc with
  | nil => rfl
  | cons u t ih =>
    rw [List.foldl_cons, ih]
    by_cases h : u.address = a
    · have hT : (u.address == a) = true := beq_iff_eq.mpr h
      rw [lookupA_mapInsert]
      rw [if_pos h.symm]
      have : (u :: t).filter (fun v => v.address == a) =
          u :: t.filter (fun v => v.address == a) := by
        simp [List.filter, hT]
      rw [this, getLast?_cons_or]
      cases hx : (t.filter fun v => v.address == a).getLast? <;> rfl
    · have hF : (u.address == a) = false := beq_eq_false_iff_ne.mpr h
      rw [lookupA_mapInsert, if_neg fun hc => h hc.symm]
      have : (u :: t).filter (fun v => v.address == a) =
          t.filter (fun v => v.address == a) := by
        simp [List.filter, hF]
      rw [this]

theorem lookupA_uniqueUpdates (l : List WatchedAddressUpdate) (a : Addr) :
    lookupA (uniqueUpdates l) a = lastUpdateOf a l := by
  have h := lookupA_foldl_mapInsert l [] a
  have hnil : lookupA [] a = none := rfl
  rw [hnil] at h
  rw [uniqueUpdates, h, lastUpdateOf]
  cases (l.filter fun u => u.address == a).getLast? <;> rfl

theorem mapKeys_mapInsert (m : List (Addr × WatchedAddressUpdate))
    (u : WatchedAddressUpdate) :
    mapKeys (mapInsert m u) =
      if u.address ∈ mapKeys m then mapKeys m else mapKeys m ++ [u.address] := by
  induction m with
  | nil => simp [mapInsert, mapKeys]
  | cons p m ih =>
    by_cases hpu : p.1 = u.address
    · have hT : (p.1 == u.address) = true := beq_iff_eq.mpr hpu
      simp [mapInsert, hT, mapKeys, hpu]
    · have hF : (p.1 == u.address) = false := beq_eq_false_iff_ne.mpr hpu
      have hne : u.address ≠ p.1 := fun hc => hpu hc.symm
      simp only [mapInsert, hF, Bool.false_eq_true, if_false]
      simp only [mapKeys, List.map_cons] at ih ⊢
      rw [ih]
      by_cases hmem : u.address ∈ m.map Prod.fst
      · simp [hmem, hne]
      · simp [hmem, hne]

theorem nodup_mapKeys_mapInsert (m : List (Addr × WatchedAddressUpdate))
    (u : WatchedAddressUpdate) (h : (mapKeys m).Nodup) :
    (mapKeys (mapInsert m u)).Nodup := by
  rw [mapKeys_mapInsert]
  by_cases hmem : u.address ∈ mapKeys m
  · simpa [hmem] using h
  · simp [hmem, List.nodup_append, h]

theorem nodup_mapKeys_foldl_mapInsert (l : List WatchedAddressUpdate)
    (acc : List (Addr × WatchedAddressUpdate)) (h : (mapKeys acc).Nodup) :
    (mapKeys (l.foldl mapInsert acc)).Nodup := by
  induction l generalizing acc with
  | nil => exact h
  | cons u t ih => exact ih _ (nodup_mapKeys_mapInsert _ _ h)

theorem nodup_mapKeys_uniqueUpdates (l : List WatchedAddressUpdate) :
    (mapKeys (uniqueUpdates l)).Nodup :=
  nodup_mapKeys_foldl_mapInsert l [] List.nodup_nil

theorem mem_map_fst_filter_iff_lookupA (m : List (Addr × WatchedAddressUpdate))
    (q : WatchedAddressUpdate → Bool) (a : Addr) (h : (mapKeys m).Nodup) :
    (a ∈ (m.filter fun p => q p.2).map Prod.fst) ↔
      ∃ v, lookupA m a = some v ∧ q v = true := by
  induction m with
  | nil => simp [lookupA]
  | cons p t ih =>
    rw [mapKeys, List.map_cons, List.nodup_cons] at h
    obtain ⟨hnotin, hnd⟩ := h
    by_cases hpa : p.1 = a
    · have hT : (p.1 == a) = true := beq_iff_eq.mpr hpa
      have hlook : lookupA (p :: t) a = some p.2 := by
        simp [lookupA, List.find?, hT]
      rw [hlook]
      by_cases hq : q p.2 = true
      · subst hpa
        simp [List.filter, hq]
      · have hq' : q p.2 = false := by
          cases hqv : q p.2
          · rfl
          · exact absurd hqv hq
        simp only [List.filter, hq', Bool.false_eq_true, if_false]
        constructor
        · intro hmem
          exfalso
          have : a ∈ t.map Prod.fst :=
            List.map_subset Prod.fst (fun _ hx => List.mem_of_mem_filter hx) hmem
          rw [← hpa] at this
          exact hnotin this
        · rintro ⟨v, hv, hqv⟩
          cases hv
          exact absurd hqv hq
    · have hF : (p.1 == a) = false := beq_eq_false_iff_ne.mpr hpa
      have hlook : lookupA (p :: t) a = lookupA t a := by
        simp [lookupA, List.find?, hF]
      rw [hlook]
      rw [← ih hnd]
      by_cases hq : q p.2 = true
      · simp only [List.filter, hq, if_true, List.map_cons, List.mem_cons]
        constructor
        · rintro (hc | hmem)
          · exact absurd hc.symm hpa
          · exact hmem
        · exact fun hmem => Or.inr hmem
      · have hq' : q p.2 = false := by
          cases hqv : q p.2
          · rfl
          · exact absurd hqv hq
        simp [List.filter, hq']

theorem snd_mem_of_mem_mapInsert (m : List (Addr × WatchedAddressUpdate))
    (u : WatchedAddressUpdate) (p : Addr × WatchedAddressUpdate)
    (hp : p ∈ mapInsert m u) : p.2 = u ∨ p ∈ m := by
  induction m with
  | nil =>
    simp [mapInsert] at hp
    subst hp
    exact Or.inl rfl
  | cons x t ih =>
    by_cases hx : x.1 = u.address
    · have hT : (x.1 == u.address) = true := beq_iff_eq.mpr hx
      simp only [mapInsert, hT, if_true, List.mem_cons] at hp
      rcases hp with hp | hp
      · subst hp
        exact Or.inl rfl
      · exact Or.inr (List.mem_cons_of_mem _ hp)
    · have hF : (x.1 == u.address) = false := beq_eq_false_iff_ne.mpr hx
      simp only [mapInsert, hF, Bool.false_eq_true, if_false, List.mem_cons] at hp
      rcases hp with hp | hp
      · subst hp
        exact Or.inr (List.mem_cons_self _ _)
      · rcases ih hp with h2 | h2
        · exact Or.inl h2
        · exact Or.inr (List.mem_cons_of_mem _ h2)

theorem snd_mem_of_mem_foldl_mapInsert (l : List WatchedAddressUpdate)
    (acc : List (Addr × WatchedAddressUpdate)) (p : Addr × WatchedAddressUpdate)
    (hp : p ∈ l.foldl mapInsert acc) : p ∈ acc ∨ p.2 ∈ l := by
  induction l generalizing acc with
  | nil => exact Or.inl hp
  | cons u t ih =>
    rw [List.foldl_cons] at hp
    rcases ih _ hp with h2 | h2
    · rcases snd_mem_of_mem_mapInsert _ _ _ h2 with h3 | h3
      · exact Or.inr (by rw [h3]; exact List.mem_cons_self _ _)
      · exact Or.inl h3
    · exact Or.inr (List.mem_cons_of_mem _ h2)

theorem filter_uniqueUpdates_eq_nil (l : List WatchedAddressUpdate)
    (op : OperationType) (h : ∀ u ∈ l, u.operationType ≠ op) :
    (uniqueUpdates l).filter (fun p => p.2.operationType == op) = [] := by
  rw [List.filter_eq_nil_iff]
  intro p hp
  rcases snd_mem_of_mem_foldl_mapInsert l [] p hp with h2 | h2
  · exact absurd h2 (List.not_mem_nil p)
  · intro hbeq
    exact h p.2 h2 (beq_iff_eq.mp hbeq)

theorem uniqueUpdates_constOp_no_other (l : List WatchedAddressUpdate)
    (op op2 : OperationType) (hl : ∀ u ∈ l, u.operationType = op) (hne : op ≠ op2) :
    ∀ a b, (a, b) ∈ uniqueUpdates l → ¬ b.operationType = op2 := by
  intro a b hab hop
  rcases snd_mem_of_mem_foldl_mapInsert l [] (a, b) hab with hc | hc
  · exact absurd hc (List.not_mem_nil _)
  · exact hne ((hl b hc).symm.trans hop)

/-- C10: within one batch passed to managedProcessAddressUpdate only the
last event per address takes effect: the batch yields one remove call and
one add call, an address is in the add call exactly when its last event in
the batch is an insert, in the remove call exactly when its last event is a
delete, and an address whose last event has any other operation type (such
as update) is in neither call. -/
theorem managedProcessAddressUpdate_last_event_wins (unused : Bool)
    (updates : List WatchedAddressUpdate) (a : Addr) (h : updates ≠ []) :
    ∃ rems adds,
      managedProcessAddressUpdate unused updates =
        [SkydCall.removeWatch rems true, SkydCall.addWatch adds unused] ∧
      ((a ∈ adds) ↔ ∃ u, lastUpdateOf a updates = some u ∧
          u.operationType = operationTypeInsert) ∧
      ((a ∈ rems) ↔ ∃ u, lastUpdateOf a updates = some u ∧
          u.operationType = operationTypeDelete) ∧
      ∀ u, lastUpdateOf a updates = some u →
        u.operationType ≠ operationTypeInsert →
        u.operationType ≠ operationTypeDelete → a ∉ adds ∧ a ∉ rems := by
  have hnd := nodup_mapKeys_uniqueUpdates updates
  refine ⟨((uniqueUpdates updates).filter
      fun p => p.2.operationType == operationTypeDelete).map Prod.fst,
    ((uniqueUpdates updates).filter
      fun p => p.2.operationType == operationTypeInsert).map Prod.fst,
    ?_, ?_, ?_, ?_⟩
  · simp only [managedProcessAddressUpdate, if_neg h]
  · have hM := mem_map_fst_filter_iff_lookupA (uniqueUpdates updates)
      (fun v => v.operationType == operationTypeInsert) a hnd
    rw [lookupA_uniqueUpdates] at hM
    refine hM.trans ⟨?_, ?_⟩
    · rintro ⟨v, hv, hq⟩
      exact ⟨v, hv, beq_iff_eq.mp hq⟩
    · rintro ⟨v, hv, hq⟩
      exact ⟨v, hv, beq_iff_eq.mpr hq⟩
  · have hM := mem_map_fst_filter_iff_lookupA (uniqueUpdates updates)
      (fun v => v.operationType == operationTypeDelete) a hnd
    rw [lookupA_uniqueUpdates] at hM
    refine hM.trans ⟨?_, ?_⟩
    · rintro ⟨v, hv, hq⟩
      exact ⟨v, hv, beq_iff_eq.mp hq⟩
    · rintro ⟨v, hv, hq⟩
      exact ⟨v, hv, beq_iff_eq.mpr hq⟩
  · intro u hu hni hndel
    have hMi := mem_map_fst_filter_iff_lookupA (uniqueUpdates updates)
      (fun v => v.operationType == operationTypeInsert) a hnd
    have hMd := mem_map_fst_filter_iff_lookupA (uniqueUpdates updates)
      (fun v => v.operationType == operationTypeDelete) a hnd
    rw [lookupA_uniqueUpdates] at hMi hMd
    constructor
    · intro hmem
      obtain ⟨v, hv, hq⟩ := hMi.mp hmem
      rw [hu] at hv
      cases hv
      exact hni (beq_iff_eq.mp hq)
    · intro hmem
      obtain ⟨v, hv, hq⟩ := hMd.mp hmem
      rw [hu] at hv
      cases hv
      exact hndel (beq_iff_eq.mp hq)

/-- C10 witness: the theorem at the concrete batch insert(1), update(1)
with a = 1: the last event for address 1 is an update, so 1 lands in
neither the add nor the remove call. -/
theorem managedProcessAddressUpdate_last_event_wins_witness :
    ([({ address := 1, operationType := operationTypeInsert } : WatchedAddressUpdate),
      { address := 1, operationType := "update" }] ≠ []) ∧
    (∃ rems adds,
      managedProcessAddressUpdate true
          [({ address := 1, operationType := operationTypeInsert } : WatchedAddressUpdate),
           { address := 1, operationType := "update" }] =
        [SkydCall.removeWatch rems true, SkydCall.addWatch adds true] ∧
      ((1 ∈ adds) ↔ ∃ u, lastUpdateOf 1
          [({ address := 1, operationType := operationTypeInsert } : WatchedAddressUpdate),
           { address := 1, operationType := "update" }] = some u ∧
          u.operationType = operationTypeInsert) ∧
      ((1 ∈ rems) ↔ ∃ u, lastUpdateOf 1
          [({ address := 1, operationType := operationTypeInsert } : WatchedAddressUpdate),
           { address := 1, operationType := "update" }] = some u ∧
          u.operationType = operationTypeDelete) ∧
      ∀ u, lastUpdateOf 1
          [({ address := 1, operationType := operationTypeInsert } : WatchedAddressUpdate),
           { address := 1, operationType := "update" }] = some u →
        u.operationType ≠ operationTypeInsert →
        u.operationType ≠ operationTypeDelete → 1 ∉ adds ∧ 1 ∉ rems) :=
  ⟨by decide,
   managedProcessAddressUpdate_last_event_wins true
     [{ address := 1, operationType := operationTypeInsert },
      { address := 1, operationType := "update" }] 1 (by decide)⟩

/-- C1 counterexample: the initial diff with one unused row to add and one
address to remove issues four wallet-daemon calls, not at most two, and its
add call carries unused=false although every added row is unused. -/
theorem watchSync_two_calls_counterexample :
    initialDiffCalls [{ primary := false, address := 1, server := "s", userSub := "" }] [2] =
      [SkydCall.removeWatch [2] true, SkydCall.addWatch [] true,
       SkydCall.removeWatch [] true, SkydCall.addWatch [1] false] ∧
    ¬ ((initialDiffCalls
        [{ primary := false, address := 1, server := "s", userSub := "" }] [2]).length ≤ 2) ∧
    ([({ primary := false, address := 1, server := "s", userSub := "" } : WatchedAddress)].all
      WatchedAddress.Unused) = true := by
  refine ⟨by decide, by decide, by decide⟩

/-- C1 (amended): a non-empty tail change-stream batch yields exactly one
remove call with unused=true followed by one add call whose unused flag is
the AND of fullDocument.Unused over ALL events of the batch (not only over
the added rows); the initial diff behaves as the claim states when only
additions are present, but when removals are present the add call's flag is
hard-coded to false, and when both sides of the diff are non-empty four
wallet-daemon calls are issued (two of them with empty address sets). -/
theorem watchSync_batching_calls (batch : List WatchedAddressDBUpdate)
    (toAdd : List WatchedAddress) (toRemove : List Addr) (hb : batch ≠ []) :
    (∃ rems adds, changeStreamBatchCalls batch =
        [SkydCall.removeWatch rems true,
         SkydCall.addWatch adds (batch.all fun e => e.fullDocument.Unused)]) ∧
    (toRemove = [] → toAdd ≠ [] →
      ∃ rems adds, initialDiffCalls toAdd toRemove =
        [SkydCall.removeWatch rems true,
         SkydCall.addWatch adds (toAdd.all WatchedAddress.Unused)]) ∧
    (toAdd = [] → toRemove ≠ [] →
      ∃ rems, initialDiffCalls toAdd toRemove =
        [SkydCall.removeWatch rems true, SkydCall.addWatch [] false]) ∧
    (toAdd ≠ [] → toRemove ≠ [] →
      ∃ rems adds, initialDiffCalls toAdd toRemove =
        [SkydCall.removeWatch rems true, SkydCall.addWatch [] true,
         SkydCall.removeWatch [] true, SkydCall.addWatch adds false]) := by
  refine ⟨?_, ?_, ?_, ?_⟩
  · have hm : batch.map WatchedAddressDBUpdate.ToUpdate ≠ [] := by
      simpa using hb
    have hcalls : changeStreamBatchCalls batch =
        [SkydCall.removeWatch
           (((uniqueUpdates (batch.map WatchedAddressDBUpdate.ToUpdate)).filter
             fun p => p.2.operationType == operationTypeDelete).map Prod.fst) true,
         SkydCall.addWatch
           (((uniqueUpdates (batch.map WatchedAddressDBUpdate.ToUpdate)).filter
             fun p => p.2.operationType == operationTypeInsert).map Prod.fst)
           (batch.all fun e => e.fullDocument.Unused)] := by
      simp only [changeStreamBatchCalls, managedProcessAddressUpdate, if_neg hm]
    exact ⟨_, _, hcalls⟩
  · rintro rfl h2
    obtain ⟨w, ws, rfl⟩ := List.exists_cons_of_ne_nil h2
    have hcalls : initialDiffCalls (w :: ws) [] =
        [SkydCall.removeWatch [] true,
         SkydCall.addWatch
           (((uniqueUpdates ((w :: ws).map fun a =>
               ({ address := a.address, operationType := operationTypeInsert } :
                 WatchedAddressUpdate))).filter
             fun p => p.2.operationType == operationTypeInsert).map Prod.fst)
           ((w :: ws).all WatchedAddress.Unused)] := by
      simp [initialDiffCalls, managedProcessAddressUpdate]
      refine uniqueUpdates_constOp_no_other _ operationTypeInsert operationTypeDelete
        ?_ (by decide)
      intro u hu
      rcases List.mem_cons.mp hu with hc | hc
      · rw [hc]
      · rw [List.mem_map] at hc
        obtain ⟨x, _, rfl⟩ := hc
        rfl
    exact ⟨_, _, hcalls⟩
  · rintro rfl h2
    obtain ⟨r, rs, rfl⟩ := List.exists_cons_of_ne_nil h2
    have hcalls : initialDiffCalls [] (r :: rs) =
        [SkydCall.removeWatch
           (((uniqueUpdates ((r :: rs).map fun a =>
               ({ address := a, operationType := operationTypeDelete } :
                 WatchedAddressUpdate))).filter
             fun p => p.2.operationType == operationTypeDelete).map Prod.fst) true,
         SkydCall.addWatch [] false] := by
      simp [initialDiffCalls, managedProcessAddressUpdate]
      refine uniqueUpdates_constOp_no_other _ operationTypeDelete operationTypeInsert
        ?_ (by decide)
      intro u hu
      rcases List.mem_cons.mp hu with hc | hc
      · rw [hc]
      · rw [List.mem_map] at hc
        obtain ⟨x, _, rfl⟩ := hc
        rfl
    exact ⟨_, hcalls⟩
  · intro h1 h2
    obtain ⟨w, ws, rfl⟩ := List.exists_cons_of_ne_nil h1
    obtain ⟨r, rs, rfl⟩ := List.exists_cons_of_ne_nil h2
    have hcalls : initialDiffCalls (w :: ws) (r :: rs) =
        [SkydCall.removeWatch
           (((uniqueUpdates ((r :: rs).map fun a =>
               ({ address := a, operationType := operationTypeDelete } :
                 WatchedAddressUpdate))).filter
             fun p => p.2.operationType == operationTypeDelete).map Prod.fst) true,
         SkydCall.addWatch [] true,
         SkydCall.removeWatch [] true,
         SkydCall.addWatch
           (((uniqueUpdates ((w :: ws).map fun a =>
               ({ address := a.address, operationType := operationTypeInsert } :
                 WatchedAddressUpdate))).filter
             fun p => p.2.operationType == operationTypeInsert).map Prod.fst) false] := by
      simp [initialDiffCalls, managedProcessAddressUpdate]
      constructor
      · refine uniqueUpdates_constOp_no_other _ operationTypeDelete operationTypeInsert
          ?_ (by decide)
        intro u hu
        rcases List.mem_cons.mp hu with hc | hc
        · rw [hc]
        · rw [List.mem_map] at hc
          obtain ⟨x, _, rfl⟩ := hc
          rfl
      · refine uniqueUpdates_constOp_no_other _ operationTypeInsert operationTypeDelete
          ?_ (by decide)
        intro u hu
        rcases List.mem_cons.mp hu with hc | hc
        · rw [hc]
        · rw [List.mem_map] at hc
          obtain ⟨x, _, rfl⟩ := hc
          rfl
    exact ⟨_, _, hcalls⟩

/-- C1 witness: the amended theorem at a concrete one-event batch and a
concrete one-sided diff. -/
theorem watchSync_batching_calls_witness :
    ([({ documentKeyAddress := 1,
         fullDocument := { primary := false, address := 1, server := "s", userSub := "" },
         operationType := operationTypeInsert } : WatchedAddressDBUpdate)] ≠ []) ∧
    ((∃ rems adds, changeStreamBatchCalls
        [({ documentKeyAddress := 1,
            fullDocument := { primary := false, address := 1, server := "s", userSub := "" },
            operationType := operationTypeInsert } : WatchedAddressDBUpdate)] =
        [SkydCall.removeWatch rems true,
         SkydCall.addWatch adds
           ([({ documentKeyAddress := 1,
                fullDocument := { primary := false, address := 1, server := "s", userSub := "" },
                operationType := operationTypeInsert } : WatchedAddressDBUpdate)].all
             fun e => e.fullDocument.Unused)]) ∧
      (([] : List Addr) = [] →
        [({ primary := false, address := 1, server := "s", userSub := "" } : WatchedAddress)] ≠ [] →
        ∃ rems adds, initialDiffCalls
          [{ primary := false, address := 1, server := "s", userSub := "" }] [] =
          [SkydCall.removeWatch rems true,
           SkydCall.addWatch adds
             ([({ primary := false, address := 1, server := "s", userSub := "" } :
                WatchedAddress)].all WatchedAddress.Unused)]) ∧
      (([({ primary := false, address := 1, server := "s", userSub := "" } :
          WatchedAddress)] : List WatchedAddress) = [] → ([] : List Addr) ≠ [] →
        ∃ rems, initialDiffCalls
          [{ primary := false, address := 1, server := "s", userSub := "" }] [] =
          [SkydCall.removeWatch rems true, SkydCall.addWatch [] false]) ∧
      ([({ primary := false, address := 1, server := "s", userSub := "" } :
          WatchedAddress)] ≠ [] → ([] : List Addr) ≠ [] →
        ∃ rems adds, initialDiffCalls
          [{ primary := false, address := 1, server := "s", userSub := "" }] [] =
          [SkydCall.removeWatch rems true, SkydCall.addWatch [] true,
           SkydCall.removeWatch [] true, SkydCall.addWatch adds false])) :=
  ⟨by decide,
   watchSync_batching_calls
     [{ documentKeyAddress := 1,
        fullDocument := { primary := false, address := 1, server := "s", userSub := "" },
        operationType := operationTypeInsert }]
     [{ primary := false, address := 1, server := "s", userSub := "" }] [] (by decide)⟩

/-- C8 counterexample: grouping the insert and the delete of the same
address into one batch and the re-insert into a second batch makes
WatchSync emit (delete, insert) for that address, not (insert, delete,
insert): within a batch only the last event per address survives. -/
theorem roundTrip_regrouping_counterexample :
    emittedOps 0 (callsOfBatches
      [[{ documentKeyAddress := 0,
          fullDocument := { primary := false, address := 0, server := "s", userSub := "" },
          operationType := operationTypeInsert },
        { documentKeyAddress := 0,
          fullDocument := { primary := false, address := 0, server := "", userSub := "" },
          operationType := operationTypeDelete }],
       [{ documentKeyAddress := 0,
          fullDocument := { primary := false, address := 0, server := "s", userSub := "" },
          operationType := operationTypeInsert }]]) =
      [operationTypeDelete, operationTypeInsert] ∧
    emittedOps 0 (callsOfBatches
      [[{ documentKeyAddress := 0,
          fullDocument := { primary := false, address := 0, server := "s", userSub := "" },
          operationType := operationTypeInsert },
        { documentKeyAddress := 0,
          fullDocument := { primary := false, address := 0, server := "", userSub := "" },
          operationType := operationTypeDelete }],
       [{ documentKeyAddress := 0,
          fullDocument := { primary := false, address := 0, server := "s", userSub := "" },
          operationType := operationTypeInsert }]]) ≠
      [operationTypeInsert, operationTypeDelete, operationTypeInsert] := by
  refine ⟨by decide, by decide⟩

theorem updateKthMatching_cases (p : WatchedAddress → Bool)
    (f : WatchedAddress → WatchedAddress) (k : Nat) (s : DBState) :
    updateKthMatching p f k s = s ∨
      ∃ l1 r l2, s = l1 ++ r :: l2 ∧ p r = true ∧
        updateKthMatching p f k s = l1 ++ f r :: l2 := by
  induction s generalizing k with
  | nil => exact Or.inl rfl
  | cons w ws ih =>
    by_cases hw : p w = true
    · cases k with
      | zero =>
        right
        exact ⟨[], w, ws, rfl, hw, by simp [updateKthMatching, hw]⟩
      | succ k =>
        rcases ih k with h | ⟨l1, r, l2, hs, hr, hres⟩
        · left
          simp [updateKthMatching, hw, h]
        · right
          refine ⟨w :: l1, r, l2, by rw [hs]; rfl, hr, ?_⟩
          simp only [updateKthMatching, hw, if_true, hres]
          rfl
    · have hw2 : p w = false := by
        cases hv : p w
        · rfl
        · exact absurd hv hw
      rcases ih k with h | ⟨l1, r, l2, hs, hr, hres⟩
      · left
        simp [updateKthMatching, hw2, h]
      · right
        refine ⟨w :: l1, r, l2, by rw [hs]; rfl, hr, ?_⟩
        simp only [updateKthMatching, hw2, Bool.false_eq_true, if_false, hres]
        rfl

theorem invI1_AddressForUser (k : Nat) (sub : String) (s : DBState)
    (h : InvI1 s) : InvI1 (AddressForUser k sub s) := by
  intro sub2 hsub2
  rw [AddressForUser]
  by_cases hany : (s.any fun w => w.userSub == sub && w.primary) = true
  · rw [if_pos hany]
    exact h sub2 hsub2
  · rw [if_neg (by simpa using hany)]
    rcases updateKthMatching_cases filterUnusedAddresses (setUserPrimary sub) k s with
      hres | ⟨l1, r, l2, hs, hr, hres⟩
    · rw [hres]
      exact h sub2 hsub2
    · rw [hres]
      have hq_fr : ((setUserPrimary sub r).userSub == sub2 &&
          (setUserPrimary sub r).primary) = (sub == sub2) := by
        simp [setUserPrimary]
      by_cases hss : sub = sub2
      · subst hss
        have hzero : primaryCount s sub = 0 := by
          rw [primaryCount, List.countP_eq_zero]
          intro w hw
          have hany2 : (s.any fun w => w.userSub == sub && w.primary) = false := by
            cases hv : (s.any fun w => w.userSub == sub && w.primary)
            · rfl
            · exact absurd hv hany
          rw [List.any_eq_false] at hany2
          exact hany2 w hw
        rw [hs, primaryCount, List.countP_append, List.countP_cons] at hzero
        have hl1 : (l1.countP fun w => w.userSub == sub && w.primary) = 0 := by omega
        have hl2 : (l2.countP fun w => w.userSub == sub && w.primary) = 0 := by omega
        rw [primaryCount, List.countP_append, List.countP_cons, hl1, hl2, hq_fr]
        split <;> simp
      · have hq_fr2 : ((setUserPrimary sub r).userSub == sub2 &&
            (setUserPrimary sub r).primary) = false := by
          rw [hq_fr]
          exact beq_eq_false_iff_ne.mpr hss
        have hq_r : (r.userSub == sub2 && r.primary) = false := by
          have hrsub : r.userSub = "" := beq_iff_eq.mp hr
          have : (r.userSub == sub2) = false := by
            rw [hrsub]
            exact beq_eq_false_iff_ne.mpr fun hc => hsub2 hc.symm
          rw [this, Bool.false_and]
        have hcount := h sub2 hsub2
        rw [hs, primaryCount, List.countP_append, List.countP_cons, hq_r] at hcount
        rw [primaryCount, List.countP_append, List.countP_cons, hq_fr2]
        omega

theorem invI1_SetPrimaryAddressInvalid (sub : String) (s : DBState)
    (h : InvI1 s) : InvI1 (SetPrimaryAddressInvalid sub s) := by
  intro sub2 hsub2
  have hle : primaryCount (SetPrimaryAddressInvalid sub s) sub2 ≤
      primaryCount s sub2 := by
    rw [SetPrimaryAddressInvalid, primaryCount, List.countP_map]
    apply List.countP_mono_left
    intro w _ hq
    by_cases hc : (w.userSub == sub && w.primary) = true
    · simp only [Function.comp_apply, hc, if_true] at hq
      simp at hq
    · simp only [Function.comp_apply, hc, if_neg] at hq
      simpa using hq
  exact le_trans hle (h sub2 hsub2)

theorem invI1_MarkServerDead (server : String) (s : DBState)
    (h : InvI1 s) : InvI1 (MarkServerDead server s) := by
  intro sub2 hsub2
  have h1 : primaryCount (MarkServerDead server s) sub2 ≤
      primaryCount (s.filter fun w =>
        !(filterUnusedAddresses w && w.server == server)) sub2 := by
    rw [MarkServerDead, primaryCount, List.countP_map]
    apply List.countP_mono_left
    intro w _ hq
    by_cases hc : (w.server == server && w.primary) = true
    · simp only [Function.comp_apply, hc, if_true] at hq
      simp at hq
    · simp only [Function.comp_apply, hc, if_neg] at hq
      simpa using hq
  have h2 : primaryCount (s.filter fun w =>
      !(filterUnusedAddresses w && w.server == server)) sub2 ≤
      primaryCount s sub2 :=
    List.Sublist.countP_le _ (List.filter_sublist s)
  exact le_trans h1 (le_trans h2 (h sub2 hsub2))

theorem invI1_applyOp (s : DBState) (op : DBOp) (h : InvI1 s) :
    InvI1 (applyOp s op) := by
  cases op with
  | addressForUser k sub => exact invI1_AddressForUser k sub s h
  | setPrimaryAddressInvalid sub => exact invI1_SetPrimaryAddressInvalid sub s h
  | markServerDead server => exact invI1_MarkServerDead server s h

/-- C3: starting from any collection state satisfying invariant I1 (every
non-empty userSub has at most one primary=true document), any finite
sequence of AddressForUser, SetPrimaryAddressInvalid and MarkServerDead
operations executed sequentially leaves I1 intact. -/
theorem invariant_I1_preserved (ops : List DBOp) (s : DBState) (h : InvI1 s) :
    InvI1 (runOps s ops) := by
  induction ops generalizing s with
  | nil => exact h
  | cons op ops ih => exact ih (applyOp s op) (invI1_applyOp s op h)

/-- C3 witness: the theorem at a state with one assigned and one unused
address and a concrete three-operation sequence. -/
theorem invariant_I1_preserved_witness :
    InvI1 [{ primary := true, address := 1, server := "A", userSub := "u1" },
           { primary := false, address := 2, server := "A", userSub := "" }] ∧
    InvI1 (runOps
      [{ primary := true, address := 1, server := "A", userSub := "u1" },
       { primary := false, address := 2, server := "A", userSub := "" }]
      [DBOp.addressForUser 0 "u2", DBOp.markServerDead "A",
       DBOp.setPrimaryAddressInvalid "u1"]) := by
  have hinv : InvI1 [{ primary := true, address := 1, server := "A", userSub := "u1" },
      { primary := false, address := 2, server := "A", userSub := "" }] := by
    intro sub hsub
    by_cases hc : ("u1" == sub) = true
    · simp [primaryCount, List.countP_cons, List.countP_nil, hc]
    · have hc2 : ("u1" == sub) = false := by
        cases hv : ("u1" == sub)
        · rfl
        · exact absurd hv hc
      simp [primaryCount, List.countP_cons, List.countP_nil, hc2]
  exact ⟨hinv, invariant_I1_preserved _ _ hinv⟩

theorem userSub_kept_applyOp (op : DBOp) (s : DBState) (w : WatchedAddress)
    (hw : w ∈ s) (hsub : w.userSub ≠ "") :
    ∃ w2 ∈ applyOp s op, w2.address = w.address ∧ w2.userSub = w.userSub := by
  cases op with
  | addressForUser k sub =>
    simp only [applyOp, AddressForUser]
    by_cases hany : (s.any fun v => v.userSub == sub && v.primary) = true
    · rw [if_pos hany]
      exact ⟨w, hw, rfl, rfl⟩
    · rw [if_neg (by simpa using hany)]
      rcases updateKthMatching_cases filterUnusedAddresses (setUserPrimary sub) k s with
        hres | ⟨l1, r, l2, hs, hr, hres⟩
      · rw [hres]
        exact ⟨w, hw, rfl, rfl⟩
      · rw [hres]
        rw [hs] at hw
        rcases List.mem_append.mp hw with hw1 | hw1
        · exact ⟨w, List.mem_append.mpr (Or.inl hw1), rfl, rfl⟩
        · rcases List.mem_cons.mp hw1 with hw2 | hw2
          · exfalso
            apply hsub
            rw [hw2]
            exact beq_iff_eq.mp hr
          · exact ⟨w, List.mem_append.mpr (Or.inr (List.mem_cons_of_mem _ hw2)), rfl, rfl⟩
  | setPrimaryAddressInvalid sub =>
    simp only [applyOp, SetPrimaryAddressInvalid]
    refine ⟨if w.userSub == sub && w.primary then { w with primary := false } else w,
      List.mem_map_of_mem _ hw, ?_, ?_⟩
    · split <;> rfl
    · split <;> rfl
  | markServerDead server =>
    simp only [applyOp, MarkServerDead]
    have hkeep : (!(filterUnusedAddresses w && w.server == server)) = true := by
      have : filterUnusedAddresses w = false := by
        rw [filterUnusedAddresses]
        exact beq_eq_false_iff_ne.mpr hsub
      rw [this, Bool.false_and, Bool.not_false]
    have hmemf : w ∈ s.filter fun v => !(filterUnusedAddresses v && v.server == server) :=
      List.mem_filter.mpr ⟨hw, hkeep⟩
    refine ⟨if w.server == server && w.primary then { w with primary := false } else w,
      List.mem_map_of_mem _ hmemf, ?_, ?_⟩
    · split <;> rfl
    · split <;> rfl

/-- C9: no operation reassigns an address: a document whose userSub is
non-empty survives any sequence of AddressForUser, SetPrimaryAddressInvalid
and MarkServerDead operations with its address and its userSub unchanged
(AddressForUser only grabs documents matching filterUnusedAddresses, the
other two only clear the primary flag or delete unused documents). -/
theorem assigned_userSub_never_changes (ops : List DBOp) (s : DBState)
    (w : WatchedAddress) (hw : w ∈ s) (hsub : w.userSub ≠ "") :
    ∃ w2 ∈ runOps s ops, w2.address = w.address ∧ w2.userSub = w.userSub := by
  induction ops generalizing s w with
  | nil => exact ⟨w, hw, rfl, rfl⟩
  | cons op ops ih =>
    obtain ⟨w2, hmem, haddr, hsub2⟩ := userSub_kept_applyOp op s w hw hsub
    obtain ⟨w3, hmem3, haddr3, hsub3⟩ :=
      ih (applyOp s op) w2 hmem (by rw [hsub2]; exact hsub)
    exact ⟨w3, hmem3, haddr3.trans haddr, hsub3.trans hsub2⟩

/-- C9 witness: the theorem at a concrete assigned document and a concrete
operation sequence trying to delete, demote and reassign it. -/
theorem assigned_userSub_never_changes_witness :
    (({ primary := true, address := 1, server := "A", userSub := "u1" } :
        WatchedAddress) ∈
      [({ primary := true, address := 1, server := "A", userSub := "u1" } :
        WatchedAddress),
       { primary := false, address := 2, server := "A", userSub := "" }]) ∧
    (({ primary := true, address := 1, server := "A", userSub := "u1" } :
        WatchedAddress).userSub ≠ "") ∧
    ∃ w2 ∈ runOps
        [({ primary := true, address := 1, server := "A", userSub := "u1" } :
          WatchedAddress),
         { primary := false, address := 2, server := "A", userSub := "" }]
        [DBOp.markServerDead "A", DBOp.setPrimaryAddressInvalid "u1",
         DBOp.addressForUser 0 "u2"],
      w2.address = ({ primary := true, address := 1, server := "A", userSub := "u1" } :
        WatchedAddress).address ∧
      w2.userSub = ({ primary := true, address := 1, server := "A", userSub := "u1" } :
        WatchedAddress).userSub :=
  ⟨by decide, by decide,
   assigned_userSub_never_changes
     [DBOp.markServerDead "A", DBOp.setPrimaryAddressInvalid "u1",
      DBOp.addressForUser 0 "u2"]
     [{ primary := true, address := 1, server := "A", userSub := "u1" },
      { primary := false, address := 2, server := "A", userSub := "" }]
     { primary := true, address := 1, server := "A", userSub := "u1" }
     (by decide) (by decide)⟩

/-- C8 (amended): when the insert, the delete and the re-insert of the same
address arrive in three separate change-stream batches, WatchSync emits
insert, delete, insert for that address to the wallet daemon, in that
order; when several of the three events share one batch only the last event
per address inside that batch takes effect. -/
theorem roundTrip_separate_batches (a : Addr) (d1 d2 d3 : WatchedAddress) :
    emittedOps a (callsOfBatches
      [[{ documentKeyAddress := a, fullDocument := d1,
          operationType := operationTypeInsert }],
       [{ documentKeyAddress := a, fullDocument := d2,
          operationType := operationTypeDelete }],
       [{ documentKeyAddress := a, fullDocument := d3,
          operationType := operationTypeInsert }]]) =
      [operationTypeInsert, operationTypeDelete, operationTypeInsert] := by
  simp [callsOfBatches, changeStreamBatchCalls, managedProcessAddressUpdate,
    uniqueUpdates, mapInsert, emittedOps, SkydCall.changeFor,
    WatchedAddressDBUpdate.ToUpdate, operationTypeInsert, operationTypeDelete,
    List.filter, List.contains]

/-- C2: MarkServerDead evaluated at the failing input, a collection whose
only document belongs to server "A" and user "u1" while server "B" is
marked dead: neither of MarkServerDead's clauses matches, yet the call
returns no error and the /dead/B handler answers 200; the handler's
ErrNoDocuments branch (which would answer 404 as the claim demands) is
unreachable because DeleteMany and UpdateMany never yield that error. -/
theorem markServerDead_no_match_succeeds :
    markServerDeadMatches "B"
      [{ primary := true, address := 1, server := "A", userSub := "u1" }] = false ∧
    (MarkServerDeadResult "B"
      [{ primary := true, address := 1, server := "A", userSub := "u1" }]).1 = none ∧
    deadServerStatus "B"
      (MarkServerDeadResult "B"
        [{ primary := true, address := 1, server := "A", userSub := "u1" }]).1 = 200 ∧
    deadServerStatus "B" (some MongoErr.errNoDocuments) = 404 := by
  exact ⟨by decide, rfl, by decide, by decide⟩

/-- C4: a pool-regeneration run leaves the collection untouched when the
unused count is at least minUnusedAddresses; otherwise, with the exact
unused count n read under the lock, it mints exactly
max(0, maxUnusedAddresses - n) addresses, each stored with the promoter's
server domain, empty userSub and primary=false; and an error-free run from
the empty collection leaves exactly maxUnusedAddresses unused documents. -/
theorem threadedRegenerateAddresses_spec (mn mx : Nat) (dom : String)
    (gen : Nat → Addr) (s : DBState) (hmn : 0 < mn) :
    (mn ≤ unusedCount s → threadedRegenerateAddresses mn mx dom gen s = s) ∧
    (unusedCount s < mn →
      ∃ minted, threadedRegenerateAddresses mn mx dom gen s = s ++ minted ∧
        minted.length = (max ((mx : Int) - (unusedCount s : Int)) 0).toNat ∧
        ∀ w ∈ minted, w.server = dom ∧ w.userSub = "" ∧ w.primary = false) ∧
    (s = [] → unusedCount (threadedRegenerateAddresses mn mx dom gen s) = mx) := by
  have hgen : unusedCount s < mn →
      ∃ minted, threadedRegenerateAddresses mn mx dom gen s = s ++ minted ∧
        minted.length = (max ((mx : Int) - (unusedCount s : Int)) 0).toNat ∧
        ∀ w ∈ minted, w.server = dom ∧ w.userSub = "" ∧ w.primary = false := by
    intro hlt
    have hsg : staticShouldGenerateAddresses mn s = true := by
      simp [staticShouldGenerateAddresses, Nat.min_eq_left (Nat.le_of_lt hlt), hlt]
    by_cases hle0 : (mx : Int) - (unusedCount s : Int) ≤ 0
    · refine ⟨[], ?_, ?_, by intro w hw; cases hw⟩
      · simp [threadedRegenerateAddresses, hsg, hle0]
      · rw [max_eq_right hle0]
        rfl
    · have hpos : 0 < (mx : Int) - (unusedCount s : Int) := lt_of_not_ge hle0
      refine ⟨((List.range ((mx : Int) - (unusedCount s : Int)).toNat).map fun i =>
        newUnusedWatchedAddress dom (gen i)), ?_, ?_, ?_⟩
      · simp [threadedRegenerateAddresses, hsg, hle0]
      · rw [List.length_map, List.length_range, max_eq_left (le_of_lt hpos)]
      · intro w hw
        rw [List.mem_map] at hw
        obtain ⟨i, _, rfl⟩ := hw
        exact ⟨rfl, rfl, rfl⟩
  refine ⟨?_, hgen, ?_⟩
  · intro hle
    have hsg : staticShouldGenerateAddresses mn s = false := by
      simp [staticShouldGenerateAddresses, Nat.min_eq_right hle]
    simp [threadedRegenerateAddresses, hsg]
  · rintro rfl
    have h0 : unusedCount ([] : DBState) < mn := by
      simpa [unusedCount] using hmn
    obtain ⟨minted, heq, hlen, hall⟩ := hgen h0
    rw [heq, List.nil_append]
    have hcnt : unusedCount minted = minted.length := by
      rw [unusedCount]
      apply List.countP_eq_length.mpr
      intro w hw
      have hu := (hall w hw).2.1
      simp [filterUnusedAddresses, hu]
    rw [hcnt, hlen]
    simp only [unusedCount, List.countP_nil, Nat.cast_zero, sub_zero]
    omega

/-- C4 witness: the theorem at the testing watermarks (5, 10) from the
empty collection. -/
theorem threadedRegenerateAddresses_spec_witness :
    0 < 5 ∧
    ((5 ≤ unusedCount [] → threadedRegenerateAddresses 5 10 "srv" id [] = []) ∧
     (unusedCount [] < 5 →
       ∃ minted, threadedRegenerateAddresses 5 10 "srv" id [] = [] ++ minted ∧
         minted.length = (max ((10 : Int) - (unusedCount [] : Int)) 0).toNat ∧
         ∀ w ∈ minted, w.server = "srv" ∧ w.userSub = "" ∧ w.primary = false) ∧
     (([] : DBState) = [] →
       unusedCount (threadedRegenerateAddresses 5 10 "srv" id []) = 10)) :=
  ⟨by decide, threadedRegenerateAddresses_spec 5 10 "srv" id [] (by decide)⟩

theorem foldl_bulkInsertStep_spec (batch : List Transaction)
    (col : List Transaction) (errs : List WriteError)
    (h1 : (txnIDs col).Nodup) (h2 : ∀ e ∈ errs, e.isDupKey = true) :
    (∀ e ∈ (batch.foldl bulkInsertStep (col, errs)).2, e.isDupKey = true) ∧
    (txnIDs (batch.foldl bulkInsertStep (col, errs)).1).Nodup ∧
    ∀ i, i ∈ txnIDs (batch.foldl bulkInsertStep (col, errs)).1 ↔
      i ∈ txnIDs col ∨ i ∈ txnIDs batch := by
  induction batch generalizing col errs with
  | nil =>
    refine ⟨h2, h1, fun i => ?_⟩
    simp [txnIDs]
  | cons t rest ih =>
    rw [List.foldl_cons]
    by_cases hdup : (col.any fun u => u.txnID == t.txnID) = true
    · have hstep : bulkInsertStep (col, errs) t =
          (col, errs ++ [{ isDupKey := true }]) := by
        simp [bulkInsertStep, hdup]
      rw [hstep]
      have h2b : ∀ e ∈ errs ++ [({ isDupKey := true } : WriteError)],
          e.isDupKey = true := by
        intro e he
        rcases List.mem_append.mp he with he | he
        · exact h2 e he
        · rw [List.mem_singleton.mp he]
      obtain ⟨g1, g2, g3⟩ := ih col (errs ++ [{ isDupKey := true }]) h1 h2b
      have htid : t.txnID ∈ txnIDs col := by
        rw [List.any_eq_true] at hdup
        obtain ⟨u, hu, hb⟩ := hdup
        rw [txnIDs, List.mem_map]
        exact ⟨u, hu, beq_iff_eq.mp hb⟩
      refine ⟨g1, g2, fun i => ?_⟩
      rw [g3]
      constructor
      · rintro (h | h)
        · exact Or.inl h
        · refine Or.inr ?_
          rw [txnIDs, List.map_cons]
          exact List.mem_cons_of_mem _ h
      · rintro (h | h)
        · exact Or.inl h
        · rw [txnIDs, List.map_cons] at h
          rcases List.mem_cons.mp h with h | h
          · left
            rw [h]
            exact htid
          · exact Or.inr h
    · have hdup2 : (col.any fun u => u.txnID == t.txnID) = false := by
        cases hv : col.any fun u => u.txnID == t.txnID
        · rfl
        · exact absurd hv hdup
      have hstep : bulkInsertStep (col, errs) t = (col ++ [t], errs) := by
        simp [bulkInsertStep, hdup2]
      rw [hstep]
      have hnotin : t.txnID ∉ txnIDs col := by
        intro hmem
        rw [txnIDs, List.mem_map] at hmem
        obtain ⟨u, hu, hb⟩ := hmem
        rw [List.any_eq_false] at hdup2
        exact hdup2 u hu (beq_iff_eq.mpr hb)
      have h1b : (txnIDs (col ++ [t])).Nodup := by
        rw [txnIDs, List.map_append]
        rw [List.nodup_append]
        exact ⟨h1, List.nodup_singleton _, by simpa [txnIDs] using hnotin⟩
      obtain ⟨g1, g2, g3⟩ := ih (col ++ [t]) errs h1b h2
      refine ⟨g1, g2, fun i => ?_⟩
      rw [g3]
      rw [txnIDs, List.map_append]
      simp only [txnIDs, List.map_cons, List.mem_append, List.mem_cons,
        List.mem_singleton, List.map_nil, List.not_mem_nil, or_false]
      tauto

/-- C5: staticInsertTransactions performs an unordered bulk insert whose
write errors are all duplicate-key errors on the txnID primary key, so the
composed error it returns is nil, and afterwards the collection holds
exactly one document per txnID (the old ids united with the batch ids,
without duplicates); and for an arbitrary bulk-write result the composed
error keeps exactly the write errors that are not duplicate-key errors. -/
theorem staticInsertTransactions_dedup (col batch : List Transaction)
    (hnd : (txnIDs col).Nodup) :
    (∀ e ∈ (insertManyUnordered col batch).2, e.isDupKey = true) ∧
    (staticInsertTransactions col batch).2 = [] ∧
    (txnIDs (staticInsertTransactions col batch).1).Nodup ∧
    (∀ i, i ∈ txnIDs (staticInsertTransactions col batch).1 ↔
      i ∈ txnIDs col ∨ i ∈ txnIDs batch) ∧
    ∀ (errs : List WriteError) (e : WriteError),
      e ∈ composeNonDupKeyErrors errs ↔ e ∈ errs ∧ e.isDupKey = false := by
  obtain ⟨g1, g2, g3⟩ := foldl_bulkInsertStep_spec batch col [] hnd
    (by intro e he; cases he)
  refine ⟨g1, ?_, g2, g3, ?_⟩
  · rw [staticInsertTransactions, composeNonDupKeyErrors, List.filter_eq_nil_iff]
    intro e he
    rw [g1 e he]
    decide
  · intro errs e
    rw [composeNonDupKeyErrors, List.mem_filter]
    constructor
    · rintro ⟨he, hb⟩
      exact ⟨he, by simpa using hb⟩
    · rintro ⟨he, hb⟩
      exact ⟨he, by simp [hb]⟩

/-- C5 witness: the theorem at a concrete collection and a batch whose two
documents collide with the collection and with each other. -/
theorem staticInsertTransactions_dedup_witness :
    (txnIDs [{ address := 1, credited := false, creditedAt := 0, txnID := 7,
               value := "1" }]).Nodup ∧
    ((∀ e ∈ (insertManyUnordered
        [{ address := 1, credited := false, creditedAt := 0, txnID := 7, value := "1" }]
        [{ address := 1, credited := false, creditedAt := 0, txnID := 7, value := "1" },
         { address := 2, credited := false, creditedAt := 0, txnID := 8, value := "2" },
         { address := 2, credited := false, creditedAt := 0, txnID := 8, value := "2" }]).2,
        e.isDupKey = true) ∧
     (staticInsertTransactions
        [{ address := 1, credited := false, creditedAt := 0, txnID := 7, value := "1" }]
        [{ address := 1, credited := false, creditedAt := 0, txnID := 7, value := "1" },
         { address := 2, credited := false, creditedAt := 0, txnID := 8, value := "2" },
         { address := 2, credited := false, creditedAt := 0, txnID := 8, value := "2" }]).2 = [] ∧
     (txnIDs (staticInsertTransactions
        [{ address := 1, credited := false, creditedAt := 0, txnID := 7, value := "1" }]
        [{ address := 1, credited := false, creditedAt := 0, txnID := 7, value := "1" },
         { address := 2, credited := false, creditedAt := 0, txnID := 8, value := "2" },
         { address := 2, credited := false, creditedAt := 0, txnID := 8, value := "2" }]).1).Nodup ∧
     (∀ i, i ∈ txnIDs (staticInsertTransactions
        [{ address := 1, credited := false, creditedAt := 0, txnID := 7, value := "1" }]
        [{ address := 1, credited := false, creditedAt := 0, txnID := 7, value := "1" },
         { address := 2, credited := false, creditedAt := 0, txnID := 8, value := "2" },
         { address := 2, credited := false, creditedAt := 0, txnID := 8, value := "2" }]).1 ↔
       i ∈ txnIDs
         [{ address := 1, credited := false, creditedAt := 0, txnID := 7, value := "1" }] ∨
       i ∈ txnIDs
         [{ address := 1, credited := false, creditedAt := 0, txnID := 7, value := "1" },
          { address := 2, credited := false, creditedAt := 0, txnID := 8, value := "2" },
          { address := 2, credited := false, creditedAt := 0, txnID := 8, value := "2" }]) ∧
     ∀ (errs : List WriteError) (e : WriteError),
       e ∈ composeNonDupKeyErrors errs ↔ e ∈ errs ∧ e.isDupKey = false) :=
  ⟨by decide,
   staticInsertTransactions_dedup
     [{ address := 1, credited := false, creditedAt := 0, txnID := 7, value := "1" }]
     [{ address := 1, credited := false, creditedAt := 0, txnID := 7, value := "1" },
      { address := 2, credited := false, creditedAt := 0, txnID := 8, value := "2" },
      { address := 2, credited := false, creditedAt := 0, txnID := 8, value := "2" }]
     (by decide)⟩

theorem outputSumStep_foldl (addr : Addr) (outs : List SiacoinOutput)
    (b : Bool) (v : Nat) :
    outs.foldl (outputSumStep addr) (b, v) =
      ((b || outs.any fun o => o.relatedAddress == addr),
       v + ((outs.filter fun o => o.relatedAddress == addr).map
         SiacoinOutput.value).sum) := by
  induction outs generalizing b v with
  | nil => simp
  | cons o rest ih =>
    rw [List.foldl_cons]
    by_cases hc : (o.relatedAddress == addr) = true
    · have hstep : outputSumStep addr (b, v) o = (true, v + o.value) := by
        simp [outputSumStep, hc]
      rw [hstep, ih]
      simp [List.any_cons, hc, List.filter_cons, Nat.add_assoc]
    · have hc2 : (o.relatedAddress == addr) = false := by
        cases hv : o.relatedAddress == addr
        · rfl
        · exact absurd hv hc
      have hstep : outputSumStep addr (b, v) o = (b, v) := by
        simp [outputSumStep, hc2]
      rw [hstep, ih]
      simp [List.any_cons, hc2, List.filter_cons]

theorem staticTxnsByAddress_foldl (addr : Addr)
    (confirmed : List ConfirmedTransaction) (acc : List Transaction) :
    confirmed.foldl
      (fun txns txn =>
        let sv := txn.outputs.foldl (outputSumStep addr) (false, 0)
        if sv.1 then
          txns ++ [{ address := addr, credited := false, creditedAt := 0,
                     txnID := txn.transactionID, value := toString sv.2 }]
        else txns) acc =
      acc ++ (confirmed.filter (hasOutputTo addr)).map (fun txn =>
        { address := addr, credited := false, creditedAt := 0,
          txnID := txn.transactionID, value := toString (outputSumTo addr txn) }) := by
  induction confirmed generalizing acc with
  | nil => simp
  | cons txn rest ih =>
    rw [List.foldl_cons]
    have hsv : txn.outputs.foldl (outputSumStep addr) (false, 0) =
        (hasOutputTo addr txn, outputSumTo addr txn) := by
      rw [outputSumStep_foldl]
      simp [hasOutputTo, outputSumTo]
    simp only [hsv]
    by_cases hc : hasOutputTo addr txn = true
    · rw [if_pos hc, ih]
      simp [List.filter_cons, hc, List.append_assoc]
    · rw [if_neg (by simpa using hc), ih]
      have hc2 : hasOutputTo addr txn = false := by
        cases hv : hasOutputTo addr txn
        · rfl
        · exact absurd hv hc
      simp [List.filter_cons, hc2]

/-- C6 (amended): the deposit poller forms one row per confirmed
transaction that has at least one output whose relatedAddress equals the
watched address — even when the summed value is zero — with value the
stringified sum of exactly those outputs; a transaction with no output to
the address produces no row, and a positive sum always comes from at least
one such output, so positive-sum transactions always get their row. -/
theorem staticTxnsByAddress_spec (addr : Addr)
    (confirmed : List ConfirmedTransaction) :
    staticTxnsByAddress addr confirmed =
      (confirmed.filter (hasOutputTo addr)).map (fun txn =>
        { address := addr, credited := false, creditedAt := 0,
          txnID := txn.transactionID, value := toString (outputSumTo addr txn) }) ∧
    ∀ txn : ConfirmedTransaction, 0 < outputSumTo addr txn →
      hasOutputTo addr txn = true := by
  constructor
  · exact (staticTxnsByAddress_foldl addr confirmed []).trans
      (by rw [List.nil_append])
  · intro txn hpos
    by_cases hc : hasOutputTo addr txn = true
    · exact hc
    · exfalso
      have hc2 : (txn.outputs.any fun o => o.relatedAddress == addr) = false := by
        cases hv : txn.outputs.any fun o => o.relatedAddress == addr
        · rfl
        · exact absurd hv hc
      rw [List.any_eq_false] at hc2
      have hfil : (txn.outputs.filter fun o => o.relatedAddress == addr) = [] := by
        rw [List.filter_eq_nil_iff]
        exact hc2
      rw [outputSumTo, hfil] at hpos
      simp at hpos

/-- C6 counterexample: a confirmed transaction whose only output pays the
watched address zero coins yields a deposit row with value "0" although the
summed value 0 is not positive, refuting the "row iff positive sum"
claim. -/
theorem staticTxnsByAddress_zero_value_counterexample :
    staticTxnsByAddress 1
      [{ transactionID := 7, outputs := [{ relatedAddress := 1, value := 0 }] }] =
      [{ address := 1, credited := false, creditedAt := 0, txnID := 7,
         value := "0" }] ∧
    ¬ (0 < outputSumTo 1
      { transactionID := 7, outputs := [{ relatedAddress := 1, value := 0 }] }) := by
  exact ⟨by decide, by decide⟩

theorem decDigits_length (n k : Nat) : (decDigits n k).length = k := by
  simp [decDigits]

theorem decDigits_isDigit (n k : Nat) : ∀ c ∈ decDigits n k, c.isDigit = true := by
  intro c hc
  rw [decDigits, List.mem_map] at hc
  obtain ⟨i, _, rfl⟩ := hc
  have hd : n / 10 ^ (k - 1 - i) % 10 < 10 := Nat.mod_lt _ (by decide)
  have hall : ∀ d, d < 10 → (Char.ofNat (48 + d)).isDigit = true := by decide
  exact hall _ hd

theorem ratFloatString_shape (x : ℚ) (prec : Nat) :
    ∃ intPart fracPart, ratFloatString x prec = intPart ++ "." ++ fracPart ∧
      fracPart.length = prec ∧ ∀ c ∈ fracPart.data, c.isDigit = true := by
  refine ⟨toString ((2 * (x.num.toNat * 10 ^ prec) + x.den) / (2 * x.den) / 10 ^ prec),
    String.mk (decDigits
      ((2 * (x.num.toNat * 10 ^ prec) + x.den) / (2 * x.den) % 10 ^ prec) prec),
    rfl, ?_, ?_⟩
  · show (decDigits _ prec).length = prec
    exact decDigits_length _ _
  · exact decDigits_isDigit _ _

/-- C7: the credit amount is the exact rational product of the siacoin
base-unit amount and the conversion rate; the credits string carries an
integer part, a dot and exactly creditPrecision (20) fractional digits; and
at the default rate 1/10^24 a deposit of 1 SC (10^24 base units) formats to
"1.00000000000000000000". -/
theorem convertSCToCredits_spec :
    (∀ (sc : Nat) (rate : ℚ), convertSCToCredits sc rate = (sc : ℚ) * rate) ∧
    (∀ (amt : Nat) (cr : ℚ),
      ∃ intPart fracPart,
        staticCreditTxnCreditsStr amt cr = intPart ++ "." ++ fracPart ∧
        fracPart.length = creditPrecision ∧
        ∀ c ∈ fracPart.data, c.isDigit = true) ∧
    staticCreditTxnCreditsStr siacoinPrecision defaultConversionRate =
      "1.00000000000000000000" := by
  refine ⟨fun _ _ => rfl, fun amt cr => ratFloatString_shape _ _, ?_⟩
  have h1 : convertSCToCredits siacoinPrecision defaultConversionRate = 1 := by
    rw [convertSCToCredits, defaultConversionRate, siacoinPrecision]
    norm_num
  show ratFloatString (convertSCToCredits siacoinPrecision defaultConversionRate)
    creditPrecision = "1.00000000000000000000"
  rw [h1]
  decide
